import Mathlib

/-!
Verification of the diff-to-patch pipeline of the `monitor` repository.

The JavaScript sources are shallowly embedded.  Strings are modelled as
`List Char` (`Str`) wherever character-level scanning matters and as Lean
`String` where only concatenation and length are needed; file-system writes
become explicit write lists; the external git and API invocations become
boolean or indexed oracles.  Every definition mirrors one function of the
source, and each doc comment names the source location it was translated
from.
-/

namespace Monitor

/-- Character-list model of a JavaScript string (all source inputs of
interest are ASCII, where JS UTF-16 length and Lean char count agree). -/
abbrev Str := List Char

/-! ## truncateContent (token-optimization-en.md, createSmartPR.js lines 240-250) -/

/-- Truncation marker appended by `truncateContent`
(`'\n... [truncated - file too large]'`, line 247/249 of the source). -/
def truncMarker : Str := "\n... [truncated - file too large]".toList

/-- Index of the last `'\n'` of the list, as JS `String.lastIndexOf`;
`none` models the JS return value `-1`. -/
def lastNewlineIdx : Str → Option Nat
  | [] => none
  | c :: rest =>
    match lastNewlineIdx rest with
    | some j => some (j + 1)
    | none => if c = '\n' then some 0 else none

/-- Shallow embedding of `truncateContent(content, maxSize)`
(createSmartPR.js lines 240-250).  The JS float comparison
`lastNewline > maxSize * 0.8` is modelled exactly as `5 * j > 4 * maxSize`:
the double computation of `maxSize * 0.8` cannot change the integer
comparison, because `4 * maxSize / 5` has fractional part a multiple of
`1/5`, far larger than the rounding error of the product. -/
def truncateContent (content : Str) (maxSize : Nat) : Str :=
  if content.length ≤ maxSize then content
  else
    let truncated := content.take maxSize
    match lastNewlineIdx truncated with
    | some j =>
      if 5 * j > 4 * maxSize then truncated.take j ++ truncMarker
      else truncated ++ truncMarker
    | none => truncated ++ truncMarker

/-- Nullable wrapper: the JS guard `if (!content ...) return content` maps a
`null` argument to `null`. -/
def truncateContentOpt (content : Option Str) (maxSize : Nat) : Option Str :=
  content.map (truncateContent · maxSize)

/-- Formalization of the C2 claim sentence: whenever the content is longer
than the ceiling, the truncated result is the content cut at a complete
line boundary at or before the ceiling (the character at the cut position
is a newline of the original content), followed by the marker.  The bound
`k ∈ range (maxSize + 1)` is the decidable rendering of `k ≤ maxSize`. -/
def cutsAtLineBoundary (content : Str) (maxSize : Nat) : Prop :=
  content.length > maxSize →
    ∃ k ∈ List.range (maxSize + 1),
      truncateContent content maxSize = content.take k ++ truncMarker
        ∧ content[k]? = some '\n'

/-- A `lastNewlineIdx` hit is inside the list and points at a newline. -/
theorem lastNewlineIdx_spec (l : Str) (j : Nat) (h : lastNewlineIdx l = some j) :
    j < l.length ∧ l[j]? = some '\n' := by
  induction l generalizing j with
  | nil => simp [lastNewlineIdx] at h
  | cons c rest ih =>
    unfold lastNewlineIdx at h
    cases hrec : lastNewlineIdx rest with
    | some i =>
      rw [hrec] at h
      simp only [Option.some.injEq] at h
      subst h
      rcases ih i hrec with ⟨hlt, hget⟩
      exact ⟨by simpa using Nat.succ_lt_succ hlt, by simpa using hget⟩
    | none =>
      rw [hrec] at h
      by_cases hc : c = '\n'
      · simp [hc] at h
        subst h
        simp [hc]
      · simp [hc] at h

/-- Above the ceiling, the truncated result is a prefix of at most
`maxSize` characters followed by the marker (shared workhorse for the
boundary and length statements). -/
theorem truncateContent_take_le (content : Str) (maxSize : Nat)
    (h : content.length > maxSize) :
    ∃ k ≤ maxSize, truncateContent content maxSize = content.take k ++ truncMarker := by
  have hnle : ¬ content.length ≤ maxSize := Nat.not_le.mpr h
  cases hnl : lastNewlineIdx (content.take maxSize) with
  | some j =>
    rcases lastNewlineIdx_spec _ _ hnl with ⟨hjlt, _⟩
    have hjle : j ≤ maxSize := by
      have := hjlt
      rw [List.length_take] at this
      omega
    by_cases hb : 5 * j > 4 * maxSize
    · refine ⟨j, hjle, ?_⟩
      simp only [truncateContent, hnle, if_false, hnl, hb, if_true]
      rw [List.take_take, Nat.min_eq_left hjle]
    · refine ⟨maxSize, le_refl _, ?_⟩
      simp [truncateContent, hnle, hnl, hb]
  | none =>
    refine ⟨maxSize, le_refl _, ?_⟩
    simp [truncateContent, hnle, hnl]

/-- Claim C2 (corrected): when the content exceeds the ceiling,
`truncateContent` always appends the marker after a prefix of at most
`maxSize` characters, and it cuts at the last line boundary of the ceiling
window — never mid-line — precisely when that boundary lies past `4/5` of
the window (the `lastNewline > maxSize * 0.8` branch); otherwise it cuts at
exactly `maxSize` characters, possibly mid-line. -/
theorem truncateContent_boundary (content : Str) (maxSize : Nat)
    (h : content.length > maxSize) :
    (∃ k ≤ maxSize, truncateContent content maxSize = content.take k ++ truncMarker)
    ∧ (∀ j, lastNewlineIdx (content.take maxSize) = some j → 5 * j > 4 * maxSize →
        truncateContent content maxSize = content.take j ++ truncMarker
          ∧ content[j]? = some '\n') := by
  have hnle : ¬ content.length ≤ maxSize := Nat.not_le.mpr h
  refine ⟨truncateContent_take_le content maxSize h, ?_⟩
  intro j hnl hb
  rcases lastNewlineIdx_spec _ _ hnl with ⟨hjlt, hget⟩
  have hjltm : j < maxSize := by
    have := hjlt
    rw [List.length_take] at this
    omega
  constructor
  · simp only [truncateContent, hnle, if_false, hnl, hb, if_true]
    rw [List.take_take, Nat.min_eq_left (Nat.le_of_lt hjltm)]
  · rw [List.getElem?_take, if_pos hjltm] at hget
    exact hget

/-- Witness for `truncateContent_boundary`: a concrete 12-character content
with ceiling 10 whose last in-window newline sits past 4/5 of the window. -/
theorem truncateContent_boundary_witness :
    ∃ k ≤ 10, truncateContent ("aaaa".toList ++ '\n' :: "bbbb".toList ++ '\n' :: "cc".toList) 10
      = ("aaaa".toList ++ '\n' :: "bbbb".toList ++ '\n' :: "cc".toList).take k ++ truncMarker :=
  (truncateContent_boundary ("aaaa".toList ++ '\n' :: "bbbb".toList ++ '\n' :: "cc".toList) 10
    (by decide)).1

/-- Counterexample to claim C2 as stated: with ceiling 10 and content
`"ab\ncdefghijklmn"`, the only newline of the window sits at index 2,
`5 * 2 > 4 * 10` fails, and the code keeps the first 10 characters — cutting
the line `cdefghijklmn` mid-line before appending the marker. -/
theorem truncateContent_midline_cut :
    ¬ cutsAtLineBoundary ("ab".toList ++ '\n' :: "cdefghijklmn".toList) 10 := by
  unfold cutsAtLineBoundary
  decide

/-- Claim C10: `truncateContent` is the identity on `null`, empty, or
small-enough content, and otherwise appends the fixed marker to a prefix of
at most `maxSize` characters, so the result exceeds the per-file ceiling by
at most the marker length. -/
theorem truncateContent_length_bound (content : Str) (maxSize : Nat) :
    truncateContentOpt none maxSize = none
    ∧ (content.length ≤ maxSize → truncateContent content maxSize = content)
    ∧ (content.length > maxSize →
        (∃ k ≤ maxSize, truncateContent content maxSize = content.take k ++ truncMarker)
        ∧ (truncateContent content maxSize).length ≤ maxSize + truncMarker.length) := by
  refine ⟨rfl, fun hle => by simp [truncateContent, hle], fun h => ?_⟩
  rcases truncateContent_take_le content maxSize h with ⟨k, hk, heq⟩
  refine ⟨⟨k, hk, heq⟩, ?_⟩
  rw [heq, List.length_append, List.length_take]
  have : min k content.length ≤ maxSize := le_trans (Nat.min_le_left ..) hk
  omega

/-- Witness for `truncateContent_length_bound` at concrete inputs: content
`"abc"` with ceiling 5 is returned unchanged, and twelve `'a'`s with
ceiling 10 stay within ceiling plus marker length. -/
theorem truncateContent_length_bound_witness :
    truncateContent ("abc".toList) 5 = "abc".toList
    ∧ (truncateContent (List.replicate 12 'a') 10).length ≤ 10 + truncMarker.length :=
  ⟨(truncateContent_length_bound ("abc".toList) 5).2.1 (by decide),
   ((truncateContent_length_bound (List.replicate 12 'a') 10).2.2 (by decide)).2⟩

/-! ## Conflict resolution (fileService.js lines 163-221 and the direct-sync
script, src/unnamed/part_008 lines 304-346) -/

/-- A file-system write performed by a conflict resolution, in order. -/
structure WriteOp where
  path : String
  content : String
deriving DecidableEq, Repr

/-- Error thrown by `FileService.resolveConflict`: message, error code, and
the message of the original error wrapped by the catch block. -/
structure ConflictResolutionError where
  message : String
  code : String
  originalMessage : String
deriving DecidableEq, Repr

/-- Outcome of one conflict-resolution call: JS `return true`,
JS `return false` (script variant only), or a thrown error. -/
inductive ResolveOutcome
  | resolved
  | unresolved
  | failed (e : ConflictResolutionError)
deriving DecidableEq, Repr

/-- True exactly when the outcome is a thrown error. -/
def ResolveOutcome.isFailed : ResolveOutcome → Bool
  | .failed _ => true
  | _ => false

/-- Separator banner of the `merge` strategy (fileService.js line 197,
identical in part_008 line 337). -/
def mergeBanner : String := "\n\n<!-- ===== MERGED FROM REPOSITORY A ===== -->\n"

/-- Shallow embedding of `FileService.resolveConflict` (fileService.js
lines 163-221).  `repoFilePath` stands for `path.join(this.repoPath,
filePath)`; `now` is the `Date.now()` timestamp of the backup suffix.  The
`default` branch throws `ConflictResolutionError` with code
`UNKNOWN_CONFLICT_STRATEGY`, which the surrounding catch block rethrows as
a `ConflictResolutionError` with code `RESOLVE_CONFLICT_ERROR` carrying the
original message. -/
def FileService.resolveConflict (filePath repoFilePath existingContent newContent : String)
    (conflictStrategy : String) (now : Nat) : List WriteOp × ResolveOutcome :=
  if conflictStrategy = "overwrite" then
    ([⟨repoFilePath, newContent⟩], .resolved)
  else if conflictStrategy = "keep" then
    ([], .resolved)
  else if conflictStrategy = "backup" then
    ([⟨repoFilePath ++ ".backup." ++ toString now, existingContent⟩,
      ⟨repoFilePath, newContent⟩], .resolved)
  else if conflictStrategy = "merge" then
    ([⟨repoFilePath, existingContent ++ mergeBanner ++ newContent⟩], .resolved)
  else
    ([], .failed ⟨"Failed to resolve conflict for " ++ filePath, "RESOLVE_CONFLICT_ERROR",
      "Unknown conflict strategy: " ++ conflictStrategy⟩)

/-- Shallow embedding of the direct-sync script's `resolveConflict`
(src/unnamed/part_008 lines 304-346): identical strategy branches, but its
`default` branch only logs `Unknown conflict strategy` and returns `false`
— no error is thrown. -/
def scriptResolveConflict (repoBFilePath existingContent newContent : String)
    (conflictStrategy : String) (now : Nat) : List WriteOp × ResolveOutcome :=
  if conflictStrategy = "overwrite" then
    ([⟨repoBFilePath, newContent⟩], .resolved)
  else if conflictStrategy = "keep" then
    ([], .resolved)
  else if conflictStrategy = "backup" then
    ([⟨repoBFilePath ++ ".backup." ++ toString now, existingContent⟩,
      ⟨repoBFilePath, newContent⟩], .resolved)
  else if conflictStrategy = "merge" then
    ([⟨repoBFilePath, existingContent ++ mergeBanner ++ newContent⟩], .resolved)
  else
    ([], .unresolved)

/-- Counterexample to claim C9 as stated: in the direct-sync script, the
unknown strategy name `theirs` does not fail with any error — the resolver
returns `false` (and performs no write), so not every conflict-resolution
call with an unrecognized strategy fails with an UnknownStrategyError. -/
theorem scriptResolveConflict_no_error :
    scriptResolveConflict "B/f.txt" "old" "new" "theirs" 0 = ([], .unresolved)
    ∧ (scriptResolveConflict "B/f.txt" "old" "new" "theirs" 0).2.isFailed = false := by
  constructor <;> rfl

/-- Claim C9 (corrected): for a strategy name outside
overwrite/keep/backup/merge, the class-based `FileService` resolver throws
a `ConflictResolutionError` (wrapping `Unknown conflict strategy`) and
writes nothing, while the direct-sync script resolver also writes nothing
but merely returns `false`, raising no error. -/
theorem resolveConflict_unknown_strategy (filePath repoFilePath existing new strategy : String)
    (now : Nat)
    (h1 : strategy ≠ "overwrite") (h2 : strategy ≠ "keep")
    (h3 : strategy ≠ "backup") (h4 : strategy ≠ "merge") :
    FileService.resolveConflict filePath repoFilePath existing new strategy now
      = ([], .failed ⟨"Failed to resolve conflict for " ++ filePath, "RESOLVE_CONFLICT_ERROR",
          "Unknown conflict strategy: " ++ strategy⟩)
    ∧ scriptResolveConflict repoFilePath existing new strategy now = ([], .unresolved) := by
  constructor
  · simp [FileService.resolveConflict, h1, h2, h3, h4]
  · simp [scriptResolveConflict, h1, h2, h3, h4]

/-- Witness for `resolveConflict_unknown_strategy` at the concrete unknown
strategy name `theirs`. -/
theorem resolveConflict_unknown_strategy_witness :
    FileService.resolveConflict "f.txt" "B/f.txt" "old" "new" "theirs" 0
      = ([], .failed ⟨"Failed to resolve conflict for f.txt", "RESOLVE_CONFLICT_ERROR",
          "Unknown conflict strategy: theirs"⟩) :=
  (resolveConflict_unknown_strategy "f.txt" "B/f.txt" "old" "new" "theirs" 0
    (by decide) (by decide) (by decide) (by decide)).1

/-! ## Patch validation (runCustomFunction.js lines 41-82) -/

/-- JS `String.includes`: `containsSeq needle hay` decides whether `needle`
occurs contiguously inside `hay`. -/
def containsSeq (needle : Str) : Str → Bool
  | [] => needle.isEmpty
  | c :: rest => needle.isPrefixOf (c :: rest) || containsSeq needle rest

/-- JS `patch.includes('diff --git')` (runCustomFunction.js line 48). -/
def hasDiffHeader (patch : Str) : Bool := containsSeq "diff --git".toList patch

/-- JS `patch.includes('---') && patch.includes('+++')` (line 49). -/
def hasFileMarkers (patch : Str) : Bool :=
  containsSeq "---".toList patch && containsSeq "+++".toList patch

/-- JS `patch.includes('@@') || patch.match(/^[\+\- ]/m)` (line 50): a hunk
header anywhere, or some line starting with `+`, `-`, or space. -/
def hasContentLine (patch : Str) : Bool :=
  containsSeq "@@".toList patch
    || (patch.splitOn '\n').any fun l =>
        match l.head? with
        | some c => c = '+' || c = '-' || c = ' '
        | none => false

/-- Structural validity check of the synthesized patch (line 52). -/
def isValidPatch (patch : Str) : Bool :=
  hasDiffHeader patch && hasFileMarkers patch && hasContentLine patch

/-- JS whitespace class of `String.trim` for the characters that occur in
this pipeline. -/
def isWsChar (c : Char) : Bool := c = ' ' || c = '\n' || c = '\t' || c = '\r'

/-- JS `String.trim`. -/
def jsTrim (s : Str) : Str :=
  ((s.dropWhile isWsChar).reverse.dropWhile isWsChar).reverse

/-- Patch validation step of runCustomFunction.js lines 52-74: an invalid
patch is replaced by the raw input diff; when that fallback is empty after
trimming, the run fails with reason `Invalid patch format and no fallback
available` (the spec's NoUsablePatchError). -/
def validatePatch (patch diffText : Str) : Except String Str :=
  if isValidPatch patch then .ok patch
  else if (jsTrim diffText).length > 0 then .ok diffText
  else .error "Invalid patch format and no fallback available"

/-- Claim C4: any structurally invalid patch — in particular one missing
the `+++` markers — is replaced by the raw diff, and when no non-empty raw
diff is available the validation fails with the NoUsablePatchError
outcome. -/
theorem validatePatch_fallback (patch diffText : Str)
    (hinv : isValidPatch patch = false) :
    (∀ p : Str, containsSeq "+++".toList p = false → isValidPatch p = false)
    ∧ (jsTrim diffText ≠ [] → validatePatch patch diffText = .ok diffText)
    ∧ (jsTrim diffText = [] →
        validatePatch patch diffText = .error "Invalid patch format and no fallback available") := by
  refine ⟨fun p hp => ?_, fun hne => ?_, fun he => ?_⟩
  · have hp' : containsSeq ['+', '+', '+'] p = false := hp
    simp [isValidPatch, hasFileMarkers, hp']
  · have : (jsTrim diffText).length > 0 := by
      cases hjt : jsTrim diffText with
      | nil => exact absurd hjt hne
      | cons a l => simp
    simp [validatePatch, hinv, this]
  · simp [validatePatch, hinv, he]

/-- Witness for `validatePatch_fallback`: a patch missing its `+++` marker
falls back to the non-empty raw diff. -/
theorem validatePatch_fallback_witness :
    validatePatch ("diff --git a/x b/x\n@@ -1 +1 @@".toList) ("diff --git a/x b/x".toList)
      = .ok ("diff --git a/x b/x".toList) :=
  ((validatePatch_fallback ("diff --git a/x b/x\n@@ -1 +1 @@".toList)
    ("diff --git a/x b/x".toList) (by decide)).2.1) (by decide)

/-! ## Patch apply cascade (createSmartPR.js lines 886-1077, the
`createPRonGitHub` apply phase) -/

/-- Outcomes of the git shell-outs of the apply phase, abstracted as
booleans: whether each `git apply` strategy invocation succeeds, and what
the working-tree inspection after the `--reject` attempt reports
(lines 944-1013). -/
structure ApplyOracle where
  threeWayOk : Bool
  rejectHasChanges : Bool
  rejectHasRejects : Bool
  whitespaceFixOk : Bool
  ignoreWhitespaceOk : Bool
  plainOk : Bool
deriving DecidableEq, Repr

/-- The apply strategies in the order the source attempts them. -/
inductive ApplyStrategy
  | threeWay | rejectTolerant | whitespaceFix | ignoreWhitespace | plain
deriving DecidableEq, Repr

/-- Success condition of each strategy, read off the source: the reject
strategy counts as having applied when the status check shows changed
files or reject fragments exist (lines 967-986). -/
def strategySucceeds (o : ApplyOracle) : ApplyStrategy → Bool
  | .threeWay => o.threeWayOk
  | .rejectTolerant => o.rejectHasChanges || o.rejectHasRejects
  | .whitespaceFix => o.whitespaceFixOk
  | .ignoreWhitespace => o.ignoreWhitespaceOk
  | .plain => o.plainOk

/-- Source order of the cascade (strategies 1-5 of lines 944-1013). -/
def strategyOrder : List ApplyStrategy :=
  [.threeWay, .rejectTolerant, .whitespaceFix, .ignoreWhitespace, .plain]

/-- Strategy cascade of `createPRonGitHub` (lines 944-1013): each strategy
is attempted only after every earlier one failed; the result is the
successful strategy together with the applied-with-rejects flag, or `none`
when even the final plain `git apply` threw.  (The later best-effort
re-scan for leftover `.rej` files at lines 1020-1028 is not part of the
cascade and is elided.) -/
def applyCascade (o : ApplyOracle) : Option (ApplyStrategy × Bool) :=
  if o.threeWayOk then some (.threeWay, false)
  else if o.rejectHasChanges || o.rejectHasRejects then
    some (.rejectTolerant, o.rejectHasRejects)
  else if o.whitespaceFixOk then some (.whitespaceFix, false)
  else if o.ignoreWhitespaceOk then some (.ignoreWhitespace, false)
  else if o.plainOk then some (.plain, false)
  else none

/-- Result of the whole apply phase: the cascade outcome plus the content
written to the `temp-patch-<ts>.error.patch` recovery file, if any. -/
structure ApplyPhaseResult where
  outcome : Except String (ApplyStrategy × Bool)
  savedErrorPatch : Option String
deriving Repr

/-- Apply phase of `createPRonGitHub` including its catch block
(lines 1036-1076): when every strategy failed, the failing patch text is
first saved to the error patch file and only then is the
`Failed to apply patch` error rethrown. -/
def applyPatchPhase (o : ApplyOracle) (patch : String) : ApplyPhaseResult :=
  match applyCascade o with
  | some r => ⟨.ok r, none⟩
  | none => ⟨.error "Failed to apply patch", some patch⟩

/-- Claim C6: the cascade reports exactly the first succeeding strategy in
source order, and — assuming a patch that cleanly applies with the
strictest plain strategy also applies three-way (the claim's premise of a
cleanly applying patch) — the reported strategy is `three-way`, never a
needlessly degraded one. -/
theorem applyCascade_prefers_threeWay (o : ApplyOracle)
    (hmono : o.plainOk = true → o.threeWayOk = true) (hp : o.plainOk = true) :
    applyCascade o = some (.threeWay, false)
    ∧ ∀ o' : ApplyOracle,
        (applyCascade o').map Prod.fst = strategyOrder.find? (strategySucceeds o') := by
  constructor
  · simp [applyCascade, hmono hp]
  · intro o'
    rcases o' with ⟨t, rc, rr, w, i, p⟩
    cases t <;> cases rc <;> cases rr <;> cases w <;> cases i <;> cases p <;> rfl

/-- Witness for `applyCascade_prefers_threeWay`: a patch whose plain and
three-way applications both succeed is reported as three-way. -/
theorem applyCascade_prefers_threeWay_witness :
    applyCascade ⟨true, false, false, false, false, true⟩ = some (.threeWay, false) :=
  (applyCascade_prefers_threeWay ⟨true, false, false, false, false, true⟩
    (fun _ => rfl) rfl).1

/-- Claim C8: whenever every apply strategy has failed, the failing patch
text is persisted to the error patch file and the apply phase surfaces the
`Failed to apply patch` error. -/
theorem applyPatchPhase_saves_failing_patch (o : ApplyOracle) (patch : String)
    (h : applyCascade o = none) :
    applyPatchPhase o patch
      = ⟨.error "Failed to apply patch", some patch⟩ := by
  simp [applyPatchPhase, h]

/-- Witness for `applyPatchPhase_saves_failing_patch`: with every strategy
failing, the concrete patch text is saved before the error surfaces. -/
theorem applyPatchPhase_saves_failing_patch_witness :
    applyPatchPhase ⟨false, false, false, false, false, false⟩ "diff --git a/x b/x"
      = ⟨.error "Failed to apply patch", some "diff --git a/x b/x"⟩ :=
  applyPatchPhase_saves_failing_patch ⟨false, false, false, false, false, false⟩
    "diff --git a/x b/x" rfl

/-! ## Rate-limit retry (createSmartPR.js lines 788-819) -/

/-- Error shape of the synthesis API call as consumed by the retry logic:
HTTP status plus the optional `retry-after` header in seconds. -/
structure ApiError where
  status : Nat
  retryAfterSec : Option Nat
deriving DecidableEq, Repr

/-- Delay resolution of lines 799-803: the server-suggested `retry-after`
seconds, else `RETRY_BASE_DELAY_MS / 1000`, converted to milliseconds. -/
def retryDelayMs (e : ApiError) (baseDelayMs : Nat) : Nat :=
  (e.retryAfterSec.getD (baseDelayMs / 1000)) * 1000

/-- Retry-by-recursion of `generatePRviaClaude` (lines 788-819): `oracle n`
is the outcome of the API call made with `retryAttempt = n`; the result
collects the backoff sleeps performed (in ms, `delay * 2 ^ attempt`) and
the final outcome.  The recursion terminates because the attempt counter
strictly increases toward `maxAttempts`. -/
def generatePRretry (oracle : Nat → Except ApiError String)
    (maxAttempts baseDelayMs : Nat) (retryAttempt : Nat) :
    List Nat × Except ApiError String :=
  match oracle retryAttempt with
  | .ok r => ([], .ok r)
  | .error e =>
    if h : e.status = 429 ∧ retryAttempt < maxAttempts then
      let rest := generatePRretry oracle maxAttempts baseDelayMs (retryAttempt + 1)
      (retryDelayMs e baseDelayMs * 2 ^ retryAttempt :: rest.1, rest.2)
    else ([], .error e)
termination_by maxAttempts - retryAttempt
decreasing_by omega

/-- On an always-rate-limited oracle, the run starting at any attempt
performs one exponentially backed-off sleep per remaining retry and
surfaces the final attempt's error unchanged. -/
theorem generatePRretry_rateLimited (oracle : Nat → Except ApiError String)
    (err : Nat → ApiError) (maxAttempts baseDelayMs : Nat)
    (horacle : ∀ k, oracle k = .error (err k))
    (hstatus : ∀ k, (err k).status = 429) :
    ∀ n start, maxAttempts - start = n → start ≤ maxAttempts →
      generatePRretry oracle maxAttempts baseDelayMs start
        = ((List.range n).map
            (fun i => retryDelayMs (err (start + i)) baseDelayMs * 2 ^ (start + i)),
           .error (err maxAttempts)) := by
  intro n
  induction n with
  | zero =>
    intro start h1 h2
    obtain rfl : maxAttempts = start := by omega
    unfold generatePRretry
    rw [horacle maxAttempts]
    dsimp only
    rw [dif_neg (fun h => absurd h.2 (by omega))]
    simp
  | succ n ih =>
    intro start h1 h2
    have hlt : start < maxAttempts := by omega
    unfold generatePRretry
    rw [horacle start]
    dsimp only
    rw [dif_pos ⟨hstatus start, hlt⟩]
    rw [ih (start + 1) (by omega) (by omega)]
    refine congrArg₂ Prod.mk ?_ rfl
    rw [List.range_succ_eq_map]
    simp only [List.map_cons, List.map_map, Nat.add_zero]
    refine congrArg₂ List.cons rfl ?_
    apply List.map_congr_left
    intro i _
    have harith : start + 1 + i = start + Nat.succ i := by omega
    simp [Function.comp, harith]

/-- For any oracle, the number of retry sleeps is bounded by the remaining
attempt budget. -/
theorem generatePRretry_length_le (oracle : Nat → Except ApiError String)
    (maxAttempts baseDelayMs : Nat) :
    ∀ n start, maxAttempts - start = n →
      (generatePRretry oracle maxAttempts baseDelayMs start).1.length
        ≤ maxAttempts - start := by
  intro n
  induction n with
  | zero =>
    intro start h1
    unfold generatePRretry
    cases oracle start with
    | ok r => simp
    | error e =>
      dsimp only
      rw [dif_neg (fun h => absurd h.2 (by omega))]
      simp
  | succ n ih =>
    intro start h1
    unfold generatePRretry
    cases oracle start with
    | ok r => simp
    | error e =>
      dsimp only
      by_cases hc : e.status = 429 ∧ start < maxAttempts
      · rw [dif_pos hc]
        have := ih (start + 1) (by omega)
        simp only [List.length_cons]
        omega
      · rw [dif_neg hc]
        simp

/-- Claim C7: starting from attempt 0, the call is retried at most
`maxAttempts` times; under an always-rate-limited oracle each retry `k`
sleeps for the resolved delay times `2 ^ k`, the error of the final
attempt is surfaced unchanged, and for every oracle the sleep count never
exceeds the cap. -/
theorem generatePR_retry_bounded (oracle : Nat → Except ApiError String)
    (err : Nat → ApiError) (maxAttempts baseDelayMs : Nat)
    (horacle : ∀ k, oracle k = .error (err k)) (hstatus : ∀ k, (err k).status = 429) :
    (generatePRretry oracle maxAttempts baseDelayMs 0).2 = .error (err maxAttempts)
    ∧ (generatePRretry oracle maxAttempts baseDelayMs 0).1.length = maxAttempts
    ∧ (∀ k, k < maxAttempts →
        (generatePRretry oracle maxAttempts baseDelayMs 0).1[k]?
          = some (retryDelayMs (err k) baseDelayMs * 2 ^ k))
    ∧ (∀ oracle' : Nat → Except ApiError String,
        (generatePRretry oracle' maxAttempts baseDelayMs 0).1.length ≤ maxAttempts) := by
  have hmain := generatePRretry_rateLimited oracle err maxAttempts baseDelayMs
    horacle hstatus (maxAttempts - 0) 0 rfl (Nat.zero_le _)
  simp only [Nat.sub_zero, Nat.zero_add] at hmain
  refine ⟨by rw [hmain], by rw [hmain]; simp, fun k hk => ?_, fun oracle' => ?_⟩
  · rw [hmain]
    simp only
    rw [List.getElem?_map, List.getElem?_range hk]
    simp
  · simpa using generatePRretry_length_le oracle' maxAttempts baseDelayMs
      (maxAttempts - 0) 0 rfl

/-- Witness for `generatePR_retry_bounded`: a concrete oracle that always
answers 429 with `retry-after: 60` and a cap of 3 attempts yields exactly
three sleeps and surfaces the rate-limit error. -/
theorem generatePR_retry_bounded_witness :
    (generatePRretry (fun _ => .error ⟨429, some 60⟩) 3 60000 0).2 = .error ⟨429, some 60⟩
    ∧ (generatePRretry (fun _ => .error ⟨429, some 60⟩) 3 60000 0).1.length = 3 :=
  ⟨(generatePR_retry_bounded (fun _ => .error ⟨429, some 60⟩) (fun _ => ⟨429, some 60⟩)
      3 60000 (fun _ => rfl) (fun _ => rfl)).1,
   (generatePR_retry_bounded (fun _ => .error ⟨429, some 60⟩) (fun _ => ⟨429, some 60⟩)
      3 60000 (fun _ => rfl) (fun _ => rfl)).2.1⟩

/-! ## Translation-family filtering (createSmartPR.js lines 409-546) -/

/-- JS `filePath.includes('/lang/') && filePath.endsWith('.json')`
(`isTranslationFile`, lines 410-412). -/
def isTranslationFile (p : Str) : Bool :=
  containsSeq "/lang/".toList p && ".json".toList.isSuffixOf p

/-- One parsed translation file: category (`back` or `front`), language
code, and the full path (`getTranslationFileInfo`, lines 478-491). -/
structure TransInfo where
  category : Str
  language : Str
  filePath : Str
deriving DecidableEq, Repr

/-- Shallow embedding of `getTranslationFileInfo` (lines 478-491): the
regex `\/lang\/(back|front)\/([^\/]+)\.json$` anchored at the end of the
path, rendered on the `/`-separated segments — the last three segments must
be `lang`, `back`/`front`, and `<language>.json` with a non-empty language,
and at least one (possibly empty) segment must precede them, which is
exactly where the regex can match.  The preceding `isTranslationFile`
guard of the source is implied by a successful regex match. -/
def getTranslationFileInfo (p : Str) : Option TransInfo :=
  match (p.splitOn '/').reverse with
  | fname :: cat :: seg :: _ :: _ =>
    if seg = "lang".toList ∧ (cat = "back".toList ∨ cat = "front".toList)
        ∧ ".json".toList.isSuffixOf fname ∧ 5 < fname.length then
      some ⟨cat, fname.take (fname.length - 5), p⟩
    else none
  | _ => none

/-- The canonical language variant preferred by the sort comparator. -/
def enLang : Str := "en".toList

/-- Boolean lexicographic order on char lists, the model of
`String.localeCompare` for the plain ASCII language codes involved. -/
def lexLeB : Str → Str → Bool
  | [], _ => true
  | _ :: _, [] => false
  | a :: as, b :: bs => if a < b then true else if b < a then false else lexLeB as bs

theorem lexLeB_refl (a : Str) : lexLeB a a = true := by
  induction a with
  | nil => rfl
  | cons c cs ih => simp [lexLeB, lt_irrefl, ih]

theorem lexLeB_total (a b : Str) : lexLeB a b = true ∨ lexLeB b a = true := by
  induction a generalizing b with
  | nil => left; rfl
  | cons c cs ih =>
    cases b with
    | nil => right; rfl
    | cons d ds =>
      rcases lt_trichotomy c d with h | h | h
      · left; simp [lexLeB, h]
      · subst h
        rcases ih ds with h2 | h2
        · left; simp [lexLeB, lt_irrefl, h2]
        · right; simp [lexLeB, lt_irrefl, h2]
      · right; simp [lexLeB, h]

theorem lexLeB_trans (a b c : Str) (h1 : lexLeB a b = true) (h2 : lexLeB b c = true) :
    lexLeB a c = true := by
  induction a generalizing b c with
  | nil => rfl
  | cons x xs ih =>
    cases b with
    | nil => simp [lexLeB] at h1
    | cons y ys =>
      cases c with
      | nil => simp [lexLeB] at h2
      | cons z zs =>
        simp only [lexLeB] at h1 h2 ⊢
        rcases lt_trichotomy x y with hxy | hxy | hxy
        · rcases lt_trichotomy y z with hyz | hyz | hyz
          · simp [lt_trans hxy hyz]
          · subst hyz; simp [hxy]
          · simp [asymm hyz, hyz] at h2
        · subst hxy
          rcases lt_trichotomy x z with hxz | hxz | hxz
          · simp [hxz]
          · subst hxz
            simp only [lt_irrefl, if_false] at h1 h2 ⊢
            exact ih _ _ h1 h2
          · simp [asymm hxz, hxz] at h2
        · simp [asymm hxy, hxy] at h1

/-- Preference order realized by the JS sort comparator of lines 450-454
and 516-519: `en` first, then languages in lexicographic order.  (On the
pair of two `en` entries the JS comparator is inconsistent, returning `-1`
both ways; as a preorder both directions hold, which any comparison sort
treats as a tie.) -/
def langPref (a b : TransInfo) : Prop :=
  a.language = enLang ∨ (b.language ≠ enLang ∧ lexLeB a.language b.language = true)

instance : DecidableRel langPref := fun a b => by
  unfold langPref
  infer_instance

instance : IsTotal TransInfo langPref where
  total a b := by
    by_cases ha : a.language = enLang
    · exact Or.inl (Or.inl ha)
    by_cases hb : b.language = enLang
    · exact Or.inr (Or.inl hb)
    rcases lexLeB_total a.language b.language with h | h
    · exact Or.inl (Or.inr ⟨hb, h⟩)
    · exact Or.inr (Or.inr ⟨ha, h⟩)

instance : IsTrans TransInfo langPref where
  trans a b c h1 h2 := by
    rcases h1 with h1 | ⟨hb, hab⟩
    · exact Or.inl h1
    rcases h2 with h2 | ⟨hc, hbc⟩
    · exact absurd h2 hb
    · exact Or.inr ⟨hc, lexLeB_trans _ _ _ hab hbc⟩

/-- Insertion into the per-category JS `Map` of `filterTranslationFiles`
(lines 495-511): existing category keys accumulate in place, new
categories are appended in first-appearance order. -/
def groupInsert (groups : List (Str × List TransInfo)) (i : TransInfo) :
    List (Str × List TransInfo) :=
  match groups with
  | [] => [(i.category, [i])]
  | (c, l) :: rest =>
    if c = i.category then (c, l ++ [i]) :: rest else (c, l) :: groupInsert rest i

/-- The grouped translation files, in insertion order. -/
def groupByCategory (infos : List TransInfo) : List (Str × List TransInfo) :=
  infos.foldl groupInsert []

/-- Result record of `filterTranslationFiles` (lines 542-545). -/
structure TranslationFilterResult where
  selected : List Str
  skippedTranslationFiles : List Str
deriving DecidableEq, Repr

/-- Shallow embedding of `filterTranslationFiles` (lines 494-546): split
paths into translation infos and the rest, group the infos by category,
sort each category by the `en`-first comparator (the JS engine sort is
stable; it is modelled by insertion sort), select each category's first
element, and record every other family member as skipped-by-redundancy. -/
def filterTranslationFiles (filePaths : List Str) : TranslationFilterResult :=
  let infos := filePaths.filterMap getTranslationFileInfo
  let nonTranslationFiles := filePaths.filter fun p => (getTranslationFileInfo p).isNone
  let sortedGroups := (groupByCategory infos).map fun g =>
    (g.1, List.insertionSort langPref g.2)
  let filteredTranslationFiles := sortedGroups.filterMap fun g =>
    g.2.head?.map TransInfo.filePath
  let skippedTranslationFiles :=
    ((sortedGroups.map fun g => g.2.drop 1).flatten).map TransInfo.filePath
  ⟨nonTranslationFiles ++ filteredTranslationFiles, skippedTranslationFiles⟩

/-- The `skippedNonTranslationFiles` computation of `generatePRviaClaude`
(lines 671-674): files neither selected nor recorded as redundant
translation samples are the ones reported as skipped due to size. -/
def skippedNonTranslationFiles (allFiles selected skippedTranslation : List Str) : List Str :=
  allFiles.filter fun f => !(selected.contains f) && !(skippedTranslation.contains f)

/-- Decidable form of the single-family hypothesis: every path that parses
as a translation file belongs to category `c`. -/
def allCategory (filePaths : List Str) (c : Str) : Bool :=
  filePaths.all fun p =>
    match getTranslationFileInfo p with
    | some i => i.category == c
    | none => true

theorem groupInsert_same (c : Str) (acc : List TransInfo) (i : TransInfo)
    (hc : i.category = c) : groupInsert [(c, acc)] i = [(c, acc ++ [i])] := by
  simp [groupInsert, hc]

theorem foldl_groupInsert_single (c : Str) :
    ∀ (rest acc : List TransInfo), (∀ i ∈ rest, i.category = c) →
      List.foldl groupInsert [(c, acc)] rest = [(c, acc ++ rest)] := by
  intro rest
  induction rest with
  | nil => intro acc _; simp
  | cons j js ih =>
    intro acc hall
    have hj : j.category = c := hall j (by simp)
    rw [List.foldl_cons, groupInsert_same c acc j hj, ih (acc ++ [j])
      (fun i hi => hall i (by simp [hi]))]
    simp

theorem groupByCategory_single (infos : List TransInfo) (c : Str)
    (hall : ∀ i ∈ infos, i.category = c) (hne : infos ≠ []) :
    groupByCategory infos = [(c, infos)] := by
  cases infos with
  | nil => exact absurd rfl hne
  | cons i is =>
    have hi : i.category = c := hall i (by simp)
    unfold groupByCategory
    rw [List.foldl_cons]
    have h0 : groupInsert [] i = [(c, [i])] := by simp [groupInsert, hi]
    rw [h0, foldl_groupInsert_single c is [i] (fun j hj => hall j (by simp [hj]))]
    simp

/-- Claim C5: when all translation files of the input belong to one
category family, `filterTranslationFiles` selects exactly one family
representative — an `en` variant if present, otherwise one with the
lexicographically least language — appended after the non-family paths;
every other family member is recorded as redundant (the selected sample
plus the redundant list is a permutation of the whole family, so nothing
is silently lost), and no redundant member can reappear in the
skipped-for-size list computed from the selection. -/
theorem filterTranslationFiles_family (filePaths : List Str) (c : Str)
    (hcat : allCategory filePaths c = true)
    (hfam : filePaths.filterMap getTranslationFileInfo ≠ []) :
    ∃ sample ∈ filePaths.filterMap getTranslationFileInfo,
      (filterTranslationFiles filePaths).selected
          = (filePaths.filter fun p => (getTranslationFileInfo p).isNone) ++ [sample.filePath]
        ∧ (filterTranslationFiles filePaths).skippedTranslationFiles.length
            = (filePaths.filterMap getTranslationFileInfo).length - 1
        ∧ (sample.filePath :: (filterTranslationFiles filePaths).skippedTranslationFiles).Perm
            ((filePaths.filterMap getTranslationFileInfo).map TransInfo.filePath)
        ∧ ((∃ f ∈ filePaths.filterMap getTranslationFileInfo, f.language = enLang) →
            sample.language = enLang)
        ∧ ((∀ f ∈ filePaths.filterMap getTranslationFileInfo, f.language ≠ enLang) →
            ∀ f ∈ filePaths.filterMap getTranslationFileInfo,
              lexLeB sample.language f.language = true)
        ∧ (∀ allFiles : List Str,
            ∀ p ∈ (filterTranslationFiles filePaths).skippedTranslationFiles,
              p ∉ skippedNonTranslationFiles allFiles
                (filterTranslationFiles filePaths).selected
                (filterTranslationFiles filePaths).skippedTranslationFiles) := by
  classical
  set infos := filePaths.filterMap getTranslationFileInfo with hinfos
  have hallc : ∀ i ∈ infos, i.category = c := by
    intro i hi
    rw [hinfos, List.mem_filterMap] at hi
    obtain ⟨p, hp, hpi⟩ := hi
    have := (List.all_eq_true.mp hcat) p hp
    rw [hpi] at this
    exact beq_iff_eq.mp this
  have hgroup : groupByCategory infos = [(c, infos)] :=
    groupByCategory_single infos c hallc hfam
  have hperm : (List.insertionSort langPref infos).Perm infos :=
    List.perm_insertionSort langPref infos
  have hsorted : List.Sorted langPref (List.insertionSort langPref infos) :=
    List.sorted_insertionSort langPref infos
  cases hs : List.insertionSort langPref infos with
  | nil =>
    rw [hs] at hperm
    exact absurd (hperm.symm.eq_nil) hfam
  | cons x xs =>
    rw [hs] at hperm hsorted
    have hx : x ∈ infos := hperm.mem_iff.mp (by simp)
    have hrel : ∀ y ∈ xs, langPref x y := (List.sorted_cons.mp hsorted).1
    have hres : filterTranslationFiles filePaths
        = ⟨(filePaths.filter fun p => (getTranslationFileInfo p).isNone) ++ [x.filePath],
           xs.map TransInfo.filePath⟩ := by
      simp only [filterTranslationFiles, hinfos.symm, hgroup, hs]
      simp [hs]
    refine ⟨x, hx, ?_, ?_, ?_, ?_, ?_, ?_⟩
    · rw [hres]
    · rw [hres]
      simp only [List.length_map]
      have : infos.length = xs.length + 1 := by
        have := hperm.length_eq
        simpa using this.symm
      omega
    · rw [hres]
      simpa using hperm.map TransInfo.filePath
    · rintro ⟨f, hf, hfen⟩
      have hf' : f ∈ x :: xs := hperm.mem_iff.mpr hf
      rcases List.mem_cons.mp hf' with rfl | hf''
      · exact hfen
      · rcases hrel f hf'' with h | ⟨hne, _⟩
        · exact h
        · exact absurd hfen hne
    · intro hnone f hf
      have hf' : f ∈ x :: xs := hperm.mem_iff.mpr hf
      rcases List.mem_cons.mp hf' with rfl | hf''
      · exact lexLeB_refl _
      · rcases hrel f hf'' with h | ⟨_, hle⟩
        · exact absurd h (hnone x hx)
        · exact hle
    · intro allFiles p hp hmem
      rw [skippedNonTranslationFiles, List.mem_filter] at hmem
      have hcontains : (filterTranslationFiles filePaths).skippedTranslationFiles.contains p
          = true := List.elem_eq_true_of_mem hp
      rw [hcontains] at hmem
      simpa using hmem.2

/-- The 18-file localization family of the spec's end-to-end scenario:
eighteen language variants under one `lang/back/` directory. -/
def familyPaths : List Str :=
  ["ar", "bn", "de", "el", "en", "es", "fa", "fr", "hi",
   "id", "it", "ja", "ko", "nl", "pl", "pt", "ru", "tr"].map
    fun l => "apps/lang/back/".toList ++ l.toList ++ ".json".toList

/-- Witness for `filterTranslationFiles_family`: the spec scenario of 18
same-category translation files, of which exactly one (`en`) is selected
and 17 are recorded as redundant. -/
theorem filterTranslationFiles_family_witness :
    ∃ sample ∈ familyPaths.filterMap getTranslationFileInfo,
      (filterTranslationFiles familyPaths).selected
          = (familyPaths.filter fun p => (getTranslationFileInfo p).isNone) ++ [sample.filePath]
        ∧ (filterTranslationFiles familyPaths).skippedTranslationFiles.length = 17 := by
  obtain ⟨s, hs, hsel, hlen, -, -, -, -⟩ :=
    filterTranslationFiles_family familyPaths ("back".toList) (by decide) (by decide)
  refine ⟨s, hs, hsel, ?_⟩
  rw [hlen]
  decide

/-! ## Token budgeting (createSmartPR.js lines 202-214 and 590-667) -/

/-- Shallow embedding of `estimateTokens` (lines 210-214):
`Math.ceil(text.length / 3.5)` is exactly `⌈2·len/7⌉`; the double division
cannot round the quotient across an integer because `2·len/7` is at
distance at least `1/7` from any other integer when it is not itself an
integer (and exact integers are represented exactly).  The `!text` guard
maps the empty string to the same value `0`. -/
def estimateTokens (s : Str) : Nat := (2 * s.length + 6) / 7

/-- Diff truncation of lines 596-600: diffs above `MAX_DIFF_SIZE` are cut
at exactly that many characters and marked. -/
def truncateDiff (diffText : Str) (maxDiffSize : Nat) : Str :=
  if diffText.length > maxDiffSize then
    diffText.take maxDiffSize ++ "\n... [diff truncated - too large]".toList
  else diffText

/-- One entry of the `filesFromA`/`filesFromB` maps keyed by path: the two
sides' contents (`none` models JS `null`) and the parsed operation. -/
structure FileRec where
  path : Str
  contentA : Option Str
  contentB : Option Str
  operation : Str
deriving DecidableEq, Repr

/-- JS `x || fallback` on a nullable string (both `null` and the empty
string are falsy). -/
def jsStrOr (c : Option Str) (d : Str) : Str :=
  match c with
  | some s => if s.isEmpty then d else s
  | none => d

/-- Prompt file section of `generatePRviaClaude` lines 614-652, with the
exact template text of the three operation branches. -/
def sectionFor (f : FileRec) : Str :=
  let operation := if f.operation.isEmpty then "modified".toList else f.operation
  let header := "\nFILE: ".toList ++ f.path ++ "\nOPERATION: ".toList ++ operation ++ ['\n']
  if operation = "new".toList then
    header
      ++ "-------------\nThis is a NEW file created in Repository A.\n\nContent from Repository A:\n".toList
      ++ jsStrOr f.contentA "(could not read file)".toList
      ++ "\n\nCurrent state in Repository B:\n(file does not exist - should be created)\n".toList
  else if operation = "deleted".toList then
    header
      ++ "-------------\nThis file was DELETED in Repository A.\n\nCurrent state in Repository B:\n".toList
      ++ jsStrOr f.contentB "(file not found in B)".toList
      ++ "\n\nNote: Consider whether this file should be deleted in B or kept.\n".toList
  else
    header
      ++ "-------------\nContent from Repository A (after changes):\n".toList
      ++ jsStrOr f.contentA "(could not read from A)".toList
      ++ "\n\nCurrent state in Repository B:\n".toList
      ++ jsStrOr f.contentB "(file not found in B)".toList ++ ['\n']

/-- Section text for a selected path: `filesFromA[filePath]` lookup plus
`sectionFor`.  Selected paths always come from the map's own keys, so the
`none` branch is unreachable in the modelled flow. -/
def sectionForPath (files : List FileRec) (p : Str) : Str :=
  match files.find? (fun f => f.path == p) with
  | some f => sectionFor f
  | none => []

/-- Priority tiers of `filterAndPrioritizeFiles` lines 568-577: translation
files lowest (3), source code highest (1), everything else middle (2). -/
def filePriority (p : Str) : Nat :=
  if isTranslationFile p then 3
  else if [".ts", ".tsx", ".js", ".jsx", ".py", ".graphql"].any
      (fun e => e.toList.isSuffixOf p) then 1
  else 2

/-- Comparator `a.priority - b.priority` of line 579, as an order. -/
def priorityLe (a b : Str) : Prop := filePriority a ≤ filePriority b

instance : DecidableRel priorityLe := fun a b => by
  unfold priorityLe
  infer_instance

/-- Shallow embedding of `filterAndPrioritizeFiles` (lines 549-588):
redundancy collapse first, then — only when still above the file cap —
a stable sort by priority tier (the JS engine sort is stable; modelled by
insertion sort) and a prefix cut at `MAX_FILES_TO_PROCESS`. -/
def filterAndPrioritizeFiles (filePaths : List Str) (maxFiles : Nat) :
    List Str × List Str :=
  let r := filterTranslationFiles filePaths
  if r.selected.length > maxFiles then
    ((List.insertionSort priorityLe r.selected).take maxFiles, r.skippedTranslationFiles)
  else (r.selected, r.skippedTranslationFiles)

/-- The running token estimate of `generatePRviaClaude` lines 612-655: the
truncated diff plus every selected file section. -/
def totalEstimatedTokens (files : List FileRec) (diffText : Str)
    (maxFiles maxDiffSize : Nat) : Nat :=
  estimateTokens (truncateDiff diffText maxDiffSize)
    + (((filterAndPrioritizeFiles (files.map FileRec.path) maxFiles).1.map
        (sectionForPath files)).map estimateTokens).sum

/-- Pre-flight selection and token-budget gate of `generatePRviaClaude`
(lines 590-667).  `softLimit` is the configured `MAX_TOKENS_PER_REQUEST`
(default 180000); the hard ceiling is the literal `190000` of line 664.
The ok payload is the list of file sections the prompt will embed plus the
soft-ceiling-warned flag; the error is the `BudgetExceededError` thrown at
line 665.  The prompt assembly (lines 669-786) and the synthesis request
(line 789) happen strictly after this gate, so the error return fails fast
before any external call is made. -/
def generatePRpreflight (files : List FileRec) (diffText : Str)
    (softLimit maxFiles maxDiffSize : Nat) : Except String (List Str × Bool) :=
  let sections := (filterAndPrioritizeFiles (files.map FileRec.path) maxFiles).1.map
    (sectionForPath files)
  let total := totalEstimatedTokens files diffText maxFiles maxDiffSize
  if total > softLimit then
    if total > 190000 then
      .error ("Estimated tokens (" ++ toString total
        ++ ") too close to API hard limit (200k). Please reduce MAX_FILES_TO_PROCESS or MAX_FILE_SIZE.")
    else .ok (sections, true)
  else .ok (sections, false)

/-- Claim C1: with the soft ceiling configured at or below the hard
ceiling (the spec's "second, higher hard ceiling"), every successful
pre-flight has a token estimate within the hard ceiling of 190000, with
the warning flag raised exactly when the estimate exceeds the soft
ceiling (warn-and-continue); and whenever the estimate exceeds the hard
ceiling the gate fails fast with the BudgetExceededError message carrying
the estimate — no section list is ever produced for the synthesis call. -/
theorem preflightGate (files : List FileRec) (diffText : Str)
    (softLimit maxFiles maxDiffSize : Nat) (hsoft : softLimit ≤ 190000) :
    (∀ s w, generatePRpreflight files diffText softLimit maxFiles maxDiffSize = .ok (s, w) →
        totalEstimatedTokens files diffText maxFiles maxDiffSize ≤ 190000
        ∧ (w = true ↔ softLimit < totalEstimatedTokens files diffText maxFiles maxDiffSize))
    ∧ (190000 < totalEstimatedTokens files diffText maxFiles maxDiffSize →
        generatePRpreflight files diffText softLimit maxFiles maxDiffSize
          = .error ("Estimated tokens ("
              ++ toString (totalEstimatedTokens files diffText maxFiles maxDiffSize)
              ++ ") too close to API hard limit (200k). Please reduce MAX_FILES_TO_PROCESS or MAX_FILE_SIZE.")) := by
  constructor
  · intro s w hok
    unfold generatePRpreflight at hok
    by_cases h1 : totalEstimatedTokens files diffText maxFiles maxDiffSize > softLimit
    · by_cases h2 : totalEstimatedTokens files diffText maxFiles maxDiffSize > 190000
      · simp [h1, h2] at hok
      · simp only [h1, h2, if_true, if_false, Except.ok.injEq, Prod.mk.injEq] at hok
        rcases hok with ⟨-, hw⟩
        refine ⟨by omega, ?_⟩
        rw [← hw]
        simp [h1]
    · simp only [h1, if_false, Except.ok.injEq, Prod.mk.injEq] at hok
      rcases hok with ⟨-, hw⟩
      refine ⟨by omega, ?_⟩
      rw [← hw]
      simp
      omega
  · intro h2
    unfold generatePRpreflight
    have h1 : totalEstimatedTokens files diffText maxFiles maxDiffSize > softLimit := by omega
    simp [h1, h2]

/-- Witness for `preflightGate`: an empty file set with a three-character
diff is well within budget, so the pre-flight succeeds unwarned. -/
theorem preflightGate_witness :
    totalEstimatedTokens [] ("abc".toList) 10 500000 ≤ 190000
    ∧ (false = true ↔ 180000 < totalEstimatedTokens [] ("abc".toList) 10 500000) :=
  (preflightGate [] ("abc".toList) 180000 10 500000 (by omega)).1 [] false rfl

/-! ## Diff parsing: parseDiffForFiles (fileService.js lines 22-93) -/

/-- One parsed file change of `parseDiffForFiles`: path, accumulated
content lines joined with newlines, and the mode-line flags. -/
structure FileChange where
  path : Str
  content : Str
  isNew : Bool
  isDeleted : Bool
deriving DecidableEq, Repr

/-- JS `currentContent.join("\n")` (lines 40 and 76). -/
def joinNl (content : List Str) : Str := List.intercalate ['\n'] content

/-- The content-line test of line 66: the line starts with `+`, `-`, or a
space. -/
def contentLineStart (l : Str) : Bool :=
  match l with
  | c :: _ => c = '+' || c = '-' || c = ' '
  | [] => false

/-- The JS `line.match(/b\/(.+)$/)` extraction of line 47: the capture is
everything after the first occurrence of `b/` that is followed by at least
one character. -/
def matchBslash : Str → Option Str
  | [] => none
  | [_] => none
  | c1 :: c2 :: rest =>
    if c1 = 'b' ∧ c2 = '/' ∧ rest ≠ [] then some rest
    else matchBslash (c2 :: rest)

/-- Push of the previous file's record (lines 37-44 and 73-80). -/
def flushFC (cur : Option Str) (content : List Str) (isN isD : Bool)
    (tail : List FileChange) : List FileChange :=
  match cur with
  | some f => ⟨f, joinNl content, isN, isD⟩ :: tail
  | none => tail

/-- Shallow embedding of the line loop of `parseDiffForFiles`
(lines 24-80), one case per branch of the source: a `diff --git` header
flushes the current record and — only when the path pattern matches —
starts a fresh one (on a failed match the source keeps the stale cursor
and content, exactly as modelled by the `none` branch); mode lines set the
flags; `+`/`-`/space lines accumulate while a file is current. -/
def parseLines : List Str → Option Str → List Str → Bool → Bool → List FileChange
  | [], cur, content, isN, isD => flushFC cur content isN isD []
  | line :: rest, cur, content, isN, isD =>
    if "diff --git".toList.isPrefixOf line then
      match matchBslash line with
      | some p => flushFC cur content isN isD (parseLines rest (some p) [] false false)
      | none => flushFC cur content isN isD (parseLines rest cur content isN isD)
    else if "new file mode".toList.isPrefixOf line then
      parseLines rest cur content true isD
    else if "deleted file mode".toList.isPrefixOf line then
      parseLines rest cur content isN true
    else if cur.isSome && contentLineStart line then
      parseLines rest cur (content ++ [line]) isN isD
    else
      parseLines rest cur content isN isD

/-- `parseDiffForFiles(diff)`: split on newlines and run the loop with an
empty state (lines 24-30). -/
def parseDiffForFiles (diff : Str) : List FileChange :=
  parseLines (diff.splitOn '\n') none [] false false

/-! ## Diff parsing: extractChangedFiles (createSmartPR.js lines 276-323) -/

/-- Operation kinds assigned by `extractChangedFiles`. -/
inductive DiffOp
  | new | deleted | modified | renamed
deriving DecidableEq, Repr

/-- One entry of the `extractChangedFiles` map: operation plus the raw
header paths (line 319). -/
structure ChangedFile where
  op : DiffOp
  pathA : Str
  pathB : Str
deriving DecidableEq, Repr

/-- Character class `[^\s"]` of the unquoted path alternative: JS `\s` for
the whitespace characters occurring in this pipeline, plus `"`. -/
def isPathStop (c : Char) : Bool := isWsChar c || c = '"'

/-- One side of the header regex,
`(?:a\/([^\s"]+)|a\/"([^"]+)")` (or the `b/` twin): returns the captured
path and the unconsumed rest of the line.  The two alternatives are
disjoint (the unquoted class excludes `"`), so the parse is
deterministic. -/
def parseSide (marker : Char) (l : Str) : Option (Str × Str) :=
  match l with
  | m :: '/' :: rest =>
    if m = marker then
      match rest with
      | '"' :: r2 =>
        let q := r2.takeWhile (fun c => c ≠ '"')
        match r2.drop q.length with
        | '"' :: r4 => if q.isEmpty then none else some (q, r4)
        | _ => none
      | _ =>
        let q := rest.takeWhile (fun c => !(isPathStop c))
        if q.isEmpty then none else some (q, rest.drop q.length)
    else none
  | _ => none

/-- Full-line match of the header regex of line 285,
`^diff --git (?:a\/([^\s"]+)|a\/"([^"]+)") (?:b\/([^\s"]+)|b\/"([^"]+)")\s*$`
with the `gm` flags rendered per line.  (The rendering agrees with the JS
regex except on quoted paths that themselves contain newlines, which no
real diff produces.) -/
def parseGitHeaderLine (line : Str) : Option (Str × Str) :=
  if "diff --git ".toList.isPrefixOf line then
    match parseSide 'a' (line.drop 11) with
    | some (pa, r1) =>
      match r1 with
      | ' ' :: r2 =>
        match parseSide 'b' r2 with
        | some (pb, r3) => if r3.all isWsChar then some (pa, pb) else none
        | none => none
      | _ => none
    | none => none
  else none

/-- The `/dev/null` sentinel. -/
def devNull : Str := "/dev/null".toList

/-- Classification of one matched header (lines 297-319): operation from
the path pair alone, destination path as map key, raw paths stored with
the `|| '/dev/null'` defaults. -/
def classifyHeader (pa pb : Str) : Str × ChangedFile :=
  let storedA := if pa.isEmpty then devNull else pa
  let storedB := if pb.isEmpty then devNull else pb
  if pa = devNull ∨ pa = "null".toList ∨ pa.isEmpty then (pb, ⟨.new, storedA, storedB⟩)
  else if pb = devNull ∨ pb = "null".toList ∨ pb.isEmpty then (pa, ⟨.deleted, storedA, storedB⟩)
  else if pa ≠ pb then (pb, ⟨.renamed, storedA, storedB⟩)
  else (pb, ⟨.modified, storedA, storedB⟩)

/-- JS `Map.set`: an existing key is updated in place keeping its
insertion position, a new key is appended. -/
def mapSet (m : List (Str × ChangedFile)) (k : Str) (v : ChangedFile) :
    List (Str × ChangedFile) :=
  match m with
  | [] => [(k, v)]
  | (k2, v2) :: rest => if k2 = k then (k2, v) :: rest else (k2, v2) :: mapSet rest k v

/-- Shallow embedding of `extractChangedFiles` (lines 276-323): scan every
line for a header match and collect the classified entries into the
insertion-ordered map. -/
def extractChangedFiles (diff : Str) : List (Str × ChangedFile) :=
  (diff.splitOn '\n').foldl
    (fun m line =>
      match parseGitHeaderLine line with
      | some (pa, pb) =>
        let e := classifyHeader pa pb
        mapSet m e.1 e.2
      | none => m)
    []

/-! ## The two-file diff of claim C3 -/

/-- The `diff --git a/<p> b/<p>` header line git emits for a new, deleted
or modified file `p`. -/
def mkHeader (p : Str) : Str :=
  "diff --git a/".toList ++ p ++ " b/".toList ++ p

/-- Section of a unified diff introducing new file `p`: header, the
`new file mode` line, then the body lines. -/
def newFileLines (p : Str) (body : List Str) : List Str :=
  mkHeader p :: "new file mode 100644".toList :: body

/-- Section of a unified diff deleting file `p`. -/
def deletedFileLines (p : Str) (body : List Str) : List Str :=
  mkHeader p :: "deleted file mode 100644".toList :: body

/-- A body line of a diff section: neither a header nor a mode line. -/
def isPlainBodyLine (l : Str) : Bool :=
  !("diff --git".toList.isPrefixOf l) && !("new file mode".toList.isPrefixOf l)
    && !("deleted file mode".toList.isPrefixOf l)

theorem matchBslash_cons_cons (c1 c2 : Char) (rest : Str) :
    matchBslash (c1 :: c2 :: rest)
      = if c1 = 'b' ∧ c2 = '/' ∧ rest ≠ [] then some rest
        else matchBslash (c2 :: rest) := by
  rw [matchBslash]

/-- The first `b/` with a non-empty remainder determines the capture. -/
theorem matchBslash_append (pre q : Str) (hpre : containsSeq ['b', '/'] pre = false)
    (hq : q ≠ []) : matchBslash (pre ++ 'b' :: '/' :: q) = some q := by
  induction pre with
  | nil =>
    rw [List.nil_append, matchBslash_cons_cons]
    simp [hq]
  | cons c pre' ih =>
    have hparts : List.isPrefixOf ['b', '/'] (c :: pre') = false
        ∧ containsSeq ['b', '/'] pre' = false := by
      simpa [containsSeq] using hpre
    rw [List.cons_append]
    cases hpp : pre' with
    | nil =>
      subst hpp
      rw [List.nil_append, matchBslash_cons_cons]
      have : ¬ (c = 'b' ∧ 'b' = '/' ∧ ('/' :: q) ≠ []) := by
        rintro ⟨-, h, -⟩
        exact absurd h (by decide)
      rw [if_neg this, matchBslash_cons_cons]
      simp [hq]
    | cons d pre'' =>
      subst hpp
      rw [List.cons_append, matchBslash_cons_cons]
      have hne : ¬ (c = 'b' ∧ d = '/' ∧ (pre'' ++ 'b' :: '/' :: q) ≠ []) := by
        rintro ⟨hc, hd, -⟩
        subst hc
        subst hd
        simp [List.isPrefixOf] at hparts
      rw [if_neg hne, ← List.cons_append]
      exact ih hparts.2

/-- Processing a block of plain body lines only accumulates the content
lines among them. -/
theorem parseLines_body (body : List Str) (hbody : ∀ l ∈ body, isPlainBodyLine l = true) :
    ∀ (rest : List Str) (p : Str) (content : List Str) (isN isD : Bool),
      parseLines (body ++ rest) (some p) content isN isD
        = parseLines rest (some p) (content ++ body.filter contentLineStart) isN isD := by
  induction body with
  | nil => intro rest p content isN isD; simp
  | cons l ls ih =>
    intro rest p content isN isD
    have hl := hbody l (by simp)
    have hls : ∀ x ∈ ls, isPlainBodyLine x = true := fun x hx => hbody x (by simp [hx])
    simp only [isPlainBodyLine, Bool.and_eq_true, Bool.not_eq_true'] at hl
    obtain ⟨⟨h1, h2⟩, h3⟩ := hl
    rw [List.cons_append, parseLines,
      if_neg (by simpa [← List.isPrefixOf_iff_prefix] using h1),
      if_neg (by simpa [← List.isPrefixOf_iff_prefix] using h2),
      if_neg (by simpa [← List.isPrefixOf_iff_prefix] using h3)]
    by_cases hc : contentLineStart l = true
    · rw [if_pos (by simp [hc]), ih hls]
      simp [List.filter_cons, hc]
    · rw [if_neg (by simp [hc]), ih hls]
      simp [List.filter_cons, hc]

/-- Claim C3 (amended, the `parseDiffForFiles` side): a diff made of one
new-file section and one deleted-file section parses to exactly two file
changes, the first flagged `new`, the second flagged `deleted` — none
modified, none renamed — with the `+`/`-`/space lines of each section
accumulated as its content.  The `containsSeq` hypotheses say the paths
contain no stray `b/` before the header's path separator (the JS
`/b\/(.+)$/` pattern captures after the first `b/`). -/
theorem parseDiffForFiles_two_file (p1 p2 : Str) (b1 b2 : List Str)
    (hp1 : p1 ≠ []) (hp2 : p2 ≠ [])
    (hn1 : containsSeq ['b', '/'] ("diff --git a/".toList ++ p1 ++ [' ']) = false)
    (hn2 : containsSeq ['b', '/'] ("diff --git a/".toList ++ p2 ++ [' ']) = false)
    (hb1 : ∀ l ∈ b1, isPlainBodyLine l = true) (hb2 : ∀ l ∈ b2, isPlainBodyLine l = true) :
    parseLines (newFileLines p1 b1 ++ deletedFileLines p2 b2) none [] false false
      = [⟨p1, joinNl (b1.filter contentLineStart), true, false⟩,
         ⟨p2, joinNl (b2.filter contentLineStart), false, true⟩] := by
  have hassoc : ∀ p : Str,
      mkHeader p = ("diff --git a/".toList ++ p ++ [' ']) ++ 'b' :: '/' :: p := by
    intro p
    simp only [mkHeader, List.append_assoc]
    rfl
  have hmatch1 : matchBslash (mkHeader p1) = some p1 := by
    rw [hassoc p1]
    exact matchBslash_append _ p1 hn1 hp1
  have hmatch2 : matchBslash (mkHeader p2) = some p2 := by
    rw [hassoc p2]
    exact matchBslash_append _ p2 hn2 hp2
  have hpref : ∀ p : Str, ("diff --git".toList).isPrefixOf (mkHeader p) = true := by
    intro p
    rw [List.isPrefixOf_iff_prefix]
    refine ⟨" a/".toList ++ (p ++ (" b/".toList ++ p)), ?_⟩
    simp only [mkHeader, List.append_assoc]
    rfl
  have hd1 : ("diff --git".toList).isPrefixOf ("new file mode 100644".toList) = false := by
    decide
  have hd2 : ("new file mode".toList).isPrefixOf ("new file mode 100644".toList) = true := by
    decide
  have hd3 : ("diff --git".toList).isPrefixOf ("deleted file mode 100644".toList) = false := by
    decide
  have hd4 : ("new file mode".toList).isPrefixOf ("deleted file mode 100644".toList) = false := by
    decide
  have hd5 : ("deleted file mode".toList).isPrefixOf ("deleted file mode 100644".toList)
      = true := by
    decide
  have step1 : parseLines (newFileLines p1 b1 ++ deletedFileLines p2 b2) none [] false false
      = parseLines (b1 ++ deletedFileLines p2 b2) (some p1) [] true false := by
    show parseLines (mkHeader p1 :: "new file mode 100644".toList
        :: (b1 ++ deletedFileLines p2 b2)) none [] false false = _
    rw [parseLines, if_pos (hpref p1), hmatch1]
    dsimp only
    simp only [flushFC]
    rw [parseLines, if_neg (by simp [hd1]), if_pos hd2]
  have step2 : parseLines (b1 ++ deletedFileLines p2 b2) (some p1) [] true false
      = parseLines (deletedFileLines p2 b2) (some p1) (b1.filter contentLineStart) true false := by
    rw [parseLines_body b1 hb1]
    simp
  have step3 : parseLines (deletedFileLines p2 b2) (some p1)
        (b1.filter contentLineStart) true false
      = ⟨p1, joinNl (b1.filter contentLineStart), true, false⟩
          :: parseLines b2 (some p2) [] false true := by
    show parseLines (mkHeader p2 :: "deleted file mode 100644".toList :: b2) (some p1)
        (b1.filter contentLineStart) true false = _
    rw [parseLines, if_pos (hpref p2), hmatch2]
    dsimp only
    simp only [flushFC]
    rw [parseLines, if_neg (by simp [hd3]), if_neg (by simp [hd4]), if_pos hd5]
  have step4 : parseLines b2 (some p2) [] false true
      = [⟨p2, joinNl (b2.filter contentLineStart), false, true⟩] := by
    rw [← List.append_nil b2, parseLines_body b2 hb2]
    simp [parseLines, flushFC]
  rw [step1, step2, step3, step4]

/-- The end-to-end scenario bodies: the git-emitted lines following the
header and mode line of the new file `src/a.js` with content `x` and of
the deleted file `docs/old.md`. -/
def scenarioNewBody : List Str :=
  ["index 0000000..d0c1a79".toList, "--- /dev/null".toList, "+++ b/src/a.js".toList,
   "@@ -0,0 +1 @@".toList, "+x".toList]

/-- Body lines of the deleted-file section of the scenario. -/
def scenarioDelBody : List Str :=
  ["index 1234567..0000000".toList, "--- a/docs/old.md".toList, "+++ /dev/null".toList,
   "@@ -1 +0,0 @@".toList, "-x".toList]

/-- The scenario diff text: one new file `src/a.js`, one deleted
`docs/old.md`, in the format git emits (same path on both header sides,
operation signalled by the mode line). -/
def scenarioDiff : Str :=
  List.intercalate ['\n']
    (newFileLines "src/a.js".toList scenarioNewBody
      ++ deletedFileLines "docs/old.md".toList scenarioDelBody)

/-- Witness for `parseDiffForFiles_two_file`: the concrete scenario diff
parses to exactly the new and deleted entries. -/
theorem parseDiffForFiles_two_file_witness :
    parseDiffForFiles scenarioDiff
      = [⟨"src/a.js".toList, joinNl (scenarioNewBody.filter contentLineStart), true, false⟩,
         ⟨"docs/old.md".toList, joinNl (scenarioDelBody.filter contentLineStart), false, true⟩] := by
  have h := parseDiffForFiles_two_file "src/a.js".toList "docs/old.md".toList
    scenarioNewBody scenarioDelBody (by decide) (by decide) (by decide) (by decide)
    (by decide) (by decide)
  unfold parseDiffForFiles
  rw [show scenarioDiff.splitOn '\n'
      = newFileLines "src/a.js".toList scenarioNewBody
        ++ deletedFileLines "docs/old.md".toList scenarioDelBody from by decide]
  exact h

/-- Counterexample to claim C3 as stated for `extractChangedFiles`: on the
very same scenario diff, the regex-based parser — which ignores the
`new file mode` / `deleted file mode` lines and classifies only from the
header path pair — reports both files as `modified`, not `new` and
`deleted`. -/
theorem extractChangedFiles_reports_modified :
    (extractChangedFiles scenarioDiff).map (fun e => (e.1, e.2.op))
        = [("src/a.js".toList, DiffOp.modified), ("docs/old.md".toList, DiffOp.modified)]
      ∧ (extractChangedFiles scenarioDiff).all
          (fun e => e.2.op ≠ DiffOp.new ∧ e.2.op ≠ DiffOp.deleted) := by
  constructor
  · decide
  · decide

end Monitor
